import Mathlib

/-!
Verification of the Symbi-OS partnership discovery engine
(`scripts/compute_matches.js`).

The script runs one Cypher query pipeline against a Neo4j property graph:

1. delete every existing `POTENTIAL_MATCH` relationship;
2. for every pair of `Company` nodes `c1`, `c2` with `c1.id < c2.id`,
   `c1.industry <> c2.industry`, and at least one `WasteMaterial` node
   reachable from both via a `PRODUCES` or `CAN_UPCYCLE` relationship,
   compute
   `jaccard = toFloat(shared) / (c1Total + c2Total - shared)` where
   `shared = count(DISTINCT w)` over the shared materials and
   `cXTotal = size([(cX)-[:PRODUCES|CAN_UPCYCLE]->(w:WasteMaterial) | w])`
   (a pattern comprehension, hence a count of relationships, with
   multiplicity when both relationship types link the same pair);
3. `MERGE` a `POTENTIAL_MATCH` edge for every pair with
   `jaccard >= 0.12`, carrying `round(jaccard*1000)/1000.0`, the shared
   count, and `sharedNames[0..5]`.

The embedding below models the graph as explicit lists, numeric scores as
exact rationals (the concrete values the claims mention — 0.12, 0.5,
1/3 — are exactly representable, so rational arithmetic tracks the
script's float arithmetic on all inputs considered here), and the
process-level behaviour (env-var guard, the single `main().catch`
handler) as explicit `Except` results.  The `computed_at` timestamp is
not modelled; all stated properties are timestamp-independent.
-/

/-- A `Company` node.  `industry` is a dynamic property and may be
absent (`none` models a missing/null property; Cypher's `<>` on null
yields null, which a `WHERE` clause treats as false). -/
structure Company where
  id : String
  name : String
  industry : Option String
deriving DecidableEq, Repr

/-- A `WasteMaterial` node. -/
structure WasteMaterial where
  id : String
  name : String
deriving DecidableEq, Repr

/-- A persisted `POTENTIAL_MATCH` edge: direction `c1 → c2`, with the
properties `SET` by the query (timestamp aside). -/
structure Match where
  c1 : String
  c2 : String
  score : ℚ
  shared_materials : Nat
  shared_names : List String
deriving DecidableEq, Repr

/-- The graph state: nodes, the two material-link relationship lists
(each entry is one stored relationship `(company id, material id)`),
and the currently persisted `POTENTIAL_MATCH` edges. -/
structure Graph where
  companies : List Company
  materials : List WasteMaterial
  produces : List (String × String)
  canUpcycle : List (String × String)
  potentialMatches : List Match
deriving DecidableEq, Repr

/-- `JACCARD_THRESHOLD = 0.12`. -/
def JACCARD_THRESHOLD : ℚ := 12 / 100

/-- The material relationships leaving company `c`, with multiplicity:
one entry per `PRODUCES` or `CAN_UPCYCLE` relationship whose target is a
`WasteMaterial` node.  Its length is the pattern-comprehension size
`size([(c)-[:PRODUCES|CAN_UPCYCLE]->(w:WasteMaterial) | w])`. -/
def matEdges (g : Graph) (c : String) : List String :=
  ((g.produces ++ g.canUpcycle).filter
    (fun e => e.1 == c && g.materials.any (fun w => w.id == e.2))).map Prod.snd

/-- `c1Total` / `c2Total` of the query: relationship count (paths, not
distinct materials). -/
def tCount (g : Graph) (c : String) : Nat :=
  (matEdges g c).length

/-- The material profile of a company as a set: the distinct materials
reachable via either relationship type. -/
def profile (g : Graph) (c : String) : List String :=
  (matEdges g c).dedup

/-- The distinct materials shared by two companies: the `w` nodes of the
pattern `(c1)-[:PRODUCES|CAN_UPCYCLE]->(w)<-[:PRODUCES|CAN_UPCYCLE]-(c2)`,
deduplicated (`count(DISTINCT w)` / `collect(DISTINCT w.name)` group). -/
def sharedMats (g : Graph) (i j : String) : List String :=
  profile g i ∩ matEdges g j

/-- `shared = count(DISTINCT w)`. -/
def sharedCount (g : Graph) (i j : String) : Nat :=
  (sharedMats g i j).length

/-- `collect(DISTINCT w.name)` over the shared materials. -/
def sharedNames (g : Graph) (i j : String) : List String :=
  ((sharedMats g i j).filterMap
    (fun mid => (g.materials.find? (fun w => w.id == mid)).map WasteMaterial.name)).dedup

/-- `toFloat(shared) / (c1Total + c2Total - shared)`, as an exact
rational. -/
def jaccard (g : Graph) (i j : String) : ℚ :=
  (sharedCount g i j : ℚ) /
    ((tCount g i : ℚ) + (tCount g j : ℚ) - (sharedCount g i j : ℚ))

/-- `round(q * 1000) / 1000.0`: Neo4j `round` is round-half-up, i.e.
`⌊x + 1/2⌋` for the positive values arising here. -/
def round3 (q : ℚ) : ℚ :=
  ((⌊q * 1000 + 1 / 2⌋ : ℤ) : ℚ) / 1000

/-- The spec's similarity formula, stated over set profiles:
`|intersection| / (|profile(A)| + |profile(B)| - |intersection|)` where
a profile is the set of distinct materials.  Kept separate from
`jaccard` (the query's computation) so the two can be compared. -/
def specJaccard (g : Graph) (i j : String) : ℚ :=
  (sharedCount g i j : ℚ) /
    (((profile g i).length : ℚ) + ((profile g j).length : ℚ) - (sharedCount g i j : ℚ))

/-- `WHERE c1.industry <> c2.industry` under Cypher ternary logic: a
null on either side makes the comparison null, which the filter treats
as a non-match. -/
def industryOk (a b : Company) : Bool :=
  match a.industry, b.industry with
  | some i, some j => i != j
  | _, _ => false

/-- All ordered pairs of company nodes (the query enumerates node
pairs). -/
def allPairs (l : List Company) : List (Company × Company) :=
  l.product l

/-- `c1.id < c2.id`: Cypher compares strings lexicographically by code
point, which is exactly the lexicographic order on the character lists
(`String.lt_iff_toList_lt`). -/
def idLt (a b : String) : Prop :=
  a.data < b.data

instance (a b : String) : Decidable (idLt a b) := by
  unfold idLt
  infer_instance

/-- The candidate filter of the `MATCH ... WHERE` clause: identifier
order, industry filter, and at least one shared material (the pattern
only yields rows for pairs with a shared `WasteMaterial`). -/
def candPass (g : Graph) (a b : Company) : Bool :=
  decide (idLt a.id b.id) && industryOk a b && decide (1 ≤ sharedCount g a.id b.id)

/-- The pairs the scorer actually evaluates. -/
def candidatePairs (g : Graph) : List (Company × Company) :=
  (allPairs g.companies).filter (fun p => candPass g p.1 p.2)

/-- The edge `MERGE`d for a retained pair: rounded score, shared count,
and the first five shared names (`sharedNames[0..5]`). -/
def mkMatch (g : Graph) (a b : Company) : Match :=
  { c1 := a.id
    c2 := b.id
    score := round3 (jaccard g a.id b.id)
    shared_materials := sharedCount g a.id b.id
    shared_names := (sharedNames g a.id b.id).take 5 }

/-- The rows written by step 2 of the script: every candidate pair with
`jaccard >= $threshold` produces one `POTENTIAL_MATCH` edge.  (The
query's final `ORDER BY score DESC` affects only the console sample,
not the persisted set.) -/
def computeMatches (g : Graph) : List Match :=
  (candidatePairs g).filterMap
    (fun p =>
      if JACCARD_THRESHOLD ≤ jaccard g p.1.id p.2.id then some (mkMatch g p.1 p.2)
      else none)

/-- One full successful run: step 1 deletes every `POTENTIAL_MATCH`
edge unconditionally, step 2 writes the freshly computed set. -/
def applyRun (g : Graph) : Graph :=
  { g with potentialMatches := computeMatches g }

/-- The write phase as the script executes it: the whole of step 2 is a
single query.  On success the computed edges are persisted; on any
write error the query rolls back (the step-1 deletion, a separate
query, has already committed), `main().catch` logs the error, and the
process exits with code 1. -/
def runScript (g : Graph) (writeOk : Bool) : Graph × Except Nat Unit :=
  if writeOk then (applyRun g, Except.ok ())
  else ({ g with potentialMatches := [] }, Except.error 1)

/-- The three connection environment variables. -/
structure Env where
  uri : Option String
  username : Option String
  password : Option String
deriving DecidableEq, Repr

/-- The whole script: the top-level guard exits with code 1 when any of
`NEO4J_URI`, `NEO4J_USERNAME`, `NEO4J_PASSWORD` is unset, before a
driver is constructed or any query is issued (the graph is untouched);
otherwise the run proceeds. -/
def scriptMain (e : Env) (g : Graph) (writeOk : Bool) : Graph × Except Nat Unit :=
  match e.uri, e.username, e.password with
  | some _, some _, some _ => runScript g writeOk
  | _, _, _ => (g, Except.error 1)

/-! ### Concrete graphs used by the witnesses and counterexamples -/

/-- A steel producer with id `c1`. -/
def wA : Company := ⟨"c1", "SteelCo", some "Steel"⟩

/-- A chemicals producer with id `c2`. -/
def wB : Company := ⟨"c2", "ChemCo", some "Chemicals"⟩

/-- Witness graph: `wA` and `wB` both produce the single material
`w1`, so the pair scores jaccard 1 and is matched. -/
def gW : Graph :=
  { companies := [wA, wB]
    materials := [⟨"w1", "Slag"⟩]
    produces := [("c1", "w1"), ("c2", "w1")]
    canUpcycle := []
    potentialMatches := [] }

/-- The single match the engine computes on `gW`. -/
def mW : Match :=
  { c1 := "c1", c2 := "c2", score := 1, shared_materials := 1, shared_names := ["Slag"] }

/-- Failing input for the set-based score formula: `wA` is linked to
material `w1` both by `PRODUCES` and by `CAN_UPCYCLE`, so the
pattern-comprehension totals count `w1` twice for `wA`. -/
def gC1 : Graph :=
  { companies := [wA, wB]
    materials := [⟨"w1", "Slag"⟩, ⟨"w2", "Acid"⟩]
    produces := [("c1", "w1"), ("c2", "w1"), ("c2", "w2")]
    canUpcycle := [("c1", "w1")]
    potentialMatches := [] }

/-- The match the engine computes on `gC1`: score `0.333`, from
`1 / (2 + 2 - 1)` rounded, not the set-based `1 / (1 + 2 - 1) = 0.5`. -/
def mC1 : Match :=
  { c1 := "c1", c2 := "c2", score := 333 / 1000, shared_materials := 1,
    shared_names := ["Slag"] }

/-- An agriculture producer with id `c3`. -/
def wC : Company := ⟨"c3", "AgriCo", some "Agriculture"⟩

/-- A textiles producer with id `c4`. -/
def wD : Company := ⟨"c4", "TexCo", some "Textiles"⟩

/-- Two disjoint qualifying pairs: `(c1, c2)` share `w1`, `(c3, c4)`
share `w2`. -/
def gC7 : Graph :=
  { companies := [wA, wB, wC, wD]
    materials := [⟨"w1", "Slag"⟩, ⟨"w2", "Husk"⟩]
    produces := [("c1", "w1"), ("c2", "w1"), ("c3", "w2"), ("c4", "w2")]
    canUpcycle := []
    potentialMatches := [] }

/-- The match for the pair `(c3, c4)` on `gC7`. -/
def mCD : Match :=
  { c1 := "c3", c2 := "c4", score := 1, shared_materials := 1, shared_names := ["Husk"] }

/-! ### Basic lemmas about the embedded definitions -/

theorem mem_allPairs {l : List Company} {a b : Company} :
    (a, b) ∈ allPairs l ↔ a ∈ l ∧ b ∈ l := by
  simp [allPairs, List.pair_mem_product]

theorem candPass_iff {g : Graph} {a b : Company} :
    candPass g a b = true ↔
      idLt a.id b.id ∧ industryOk a b = true ∧ 1 ≤ sharedCount g a.id b.id := by
  simp [candPass, Bool.and_eq_true, decide_eq_true_iff, and_assoc]

theorem mem_computeMatches {g : Graph} {m : Match} :
    m ∈ computeMatches g ↔
      ∃ a b : Company, a ∈ g.companies ∧ b ∈ g.companies ∧ candPass g a b = true ∧
        JACCARD_THRESHOLD ≤ jaccard g a.id b.id ∧ m = mkMatch g a b := by
  constructor
  · intro hm
    rcases List.mem_filterMap.1 hm with ⟨p, hp, hsome⟩
    rcases List.mem_filter.1 hp with ⟨hmem, hcand⟩
    by_cases hθ : JACCARD_THRESHOLD ≤ jaccard g p.1.id p.2.id
    · refine ⟨p.1, p.2, ?_, ?_, hcand, hθ, ?_⟩
      · exact ((mem_allPairs (a := p.1) (b := p.2)).1 hmem).1
      · exact ((mem_allPairs (a := p.1) (b := p.2)).1 hmem).2
      · rw [if_pos hθ] at hsome
        exact (Option.some.injEq _ _ ▸ hsome).symm
    · rw [if_neg hθ] at hsome
      exact absurd hsome (Option.noConfusion)
  · rintro ⟨a, b, ha, hb, hcand, hθ, rfl⟩
    refine List.mem_filterMap.2 ⟨(a, b), ?_, ?_⟩
    · exact List.mem_filter.2 ⟨mem_allPairs.2 ⟨ha, hb⟩, hcand⟩
    · simp [hθ]

theorem mem_sharedMats {g : Graph} {i j x : String} :
    x ∈ sharedMats g i j ↔ x ∈ matEdges g i ∧ x ∈ matEdges g j := by
  simp [sharedMats, profile, List.mem_inter_iff, List.mem_dedup]

theorem sharedMats_nodup (g : Graph) (i j : String) : (sharedMats g i j).Nodup := by
  rw [sharedMats, List.inter_def]
  exact ((matEdges g i).nodup_dedup).filter _

theorem sharedCount_comm (g : Graph) (i j : String) :
    sharedCount g i j = sharedCount g j i := by
  unfold sharedCount
  refine ((List.perm_ext_iff_of_nodup (sharedMats_nodup g i j)
    (sharedMats_nodup g j i)).2 ?_).length_eq
  intro x
  rw [mem_sharedMats, mem_sharedMats, and_comm]

theorem sharedCount_le_profile (g : Graph) (i j : String) :
    sharedCount g i j ≤ (profile g i).length := by
  unfold sharedCount sharedMats
  rw [List.inter_def]
  exact (List.filter_sublist _).length_le

theorem profile_length_le_tCount (g : Graph) (i : String) :
    (profile g i).length ≤ tCount g i :=
  (List.dedup_sublist _).length_le

theorem sharedCount_le_tCount (g : Graph) (i j : String) :
    sharedCount g i j ≤ tCount g i :=
  le_trans (sharedCount_le_profile g i j) (profile_length_le_tCount g i)

/-- The persisted matches are insensitive to the previously persisted
matches: the query pipeline reads only companies, materials and the two
material relationship lists. -/
theorem computeMatches_pm (g : Graph) (pm : List Match) :
    computeMatches { g with potentialMatches := pm } = computeMatches g := rfl

theorem le_round3 {q : ℚ} {k : ℤ} (h : (k : ℚ) / 1000 ≤ q) :
    (k : ℚ) / 1000 ≤ round3 q := by
  unfold round3
  have hk : (k : ℚ) ≤ q * 1000 + 1 / 2 := by
    have h1000 : (k : ℚ) ≤ q * 1000 := by
      rw [div_le_iff₀ (by norm_num)] at h
      linarith
    linarith
  have hfloor : k ≤ ⌊q * 1000 + 1 / 2⌋ := Int.le_floor.2 hk
  have : (k : ℚ) ≤ (⌊q * 1000 + 1 / 2⌋ : ℚ) := by exact_mod_cast hfloor
  linarith

theorem round3_den {q : ℚ} : ∃ k : ℤ, round3 q = (k : ℚ) / 1000 :=
  ⟨⌊q * 1000 + 1 / 2⌋, rfl⟩

/-- The query's similarity value never exceeds the spec's set-based
Jaccard similarity: the relationship counts in the denominator dominate
the distinct-material profile sizes. -/
theorem jaccard_le_specJaccard {g : Graph} {i j : String}
    (hs : 1 ≤ sharedCount g i j) : jaccard g i j ≤ specJaccard g i j := by
  unfold jaccard specJaccard
  have hp1 : sharedCount g i j ≤ (profile g i).length := sharedCount_le_profile g i j
  have hp2 : sharedCount g i j ≤ (profile g j).length := by
    rw [sharedCount_comm]
    exact sharedCount_le_profile g j i
  have ht1 : (profile g i).length ≤ tCount g i := profile_length_le_tCount g i
  have ht2 : (profile g j).length ≤ tCount g j := profile_length_le_tCount g j
  have hq1 : (sharedCount g i j : ℚ) ≤ ((profile g i).length : ℚ) := by exact_mod_cast hp1
  have hq2 : (sharedCount g i j : ℚ) ≤ ((profile g j).length : ℚ) := by exact_mod_cast hp2
  have hqt1 : ((profile g i).length : ℚ) ≤ (tCount g i : ℚ) := by exact_mod_cast ht1
  have hqt2 : ((profile g j).length : ℚ) ≤ (tCount g j : ℚ) := by exact_mod_cast ht2
  have hqs : (1 : ℚ) ≤ (sharedCount g i j : ℚ) := by exact_mod_cast hs
  have hden : (0 : ℚ) <
      ((profile g i).length : ℚ) + ((profile g j).length : ℚ) - (sharedCount g i j : ℚ) := by
    linarith
  gcongr

theorem mem_candidatePairs {g : Graph} {a b : Company} :
    (a, b) ∈ candidatePairs g ↔ (a ∈ g.companies ∧ b ∈ g.companies) ∧ candPass g a b = true := by
  rw [candidatePairs, List.mem_filter, mem_allPairs]

theorem industryOk_iff {a b : Company} :
    industryOk a b = true ↔
      ∃ i1 i2, a.industry = some i1 ∧ b.industry = some i2 ∧ i1 ≠ i2 := by
  cases ha : a.industry with
  | none => simp [industryOk, ha]
  | some i =>
    cases hb : b.industry with
    | none => simp [industryOk, ha, hb]
    | some j => simp [industryOk, ha, hb, bne_iff_ne]

theorem map_idPair_allPairs (l : List Company) :
    (allPairs l).map (fun p => (p.1.id, p.2.id)) =
      (l.map Company.id).product (l.map Company.id) := by
  show ((l.flatMap fun a => l.map (Prod.mk a)).map fun p => (p.1.id, p.2.id)) = _
  rw [List.map_flatMap]
  show _ = (l.map Company.id).flatMap fun i => (l.map Company.id).map (Prod.mk i)
  rw [List.flatMap_map]
  refine List.flatMap_congr ?_
  intro a _
  simp [List.map_map, Function.comp]

theorem nodup_map_filterMap {α β γ : Type} (f : α → Option β) (h : β → γ) (gk : α → γ)
    (hf : ∀ x m, f x = some m → h m = gk x) :
    ∀ l : List α, (l.map gk).Nodup → ((l.filterMap f).map h).Nodup := by
  intro l
  induction l with
  | nil =>
    intro _
    simp
  | cons x l ih =>
    intro hn
    rw [List.map_cons, List.nodup_cons] at hn
    rcases hn with ⟨hx, hl⟩
    rw [List.filterMap_cons]
    cases hfx : f x with
    | none => exact ih hl
    | some m =>
      rw [List.map_cons, List.nodup_cons]
      refine ⟨?_, ih hl⟩
      intro hmem
      rcases List.mem_map.1 hmem with ⟨m', hm', heq⟩
      rcases List.mem_filterMap.1 hm' with ⟨x', hx', hfx'⟩
      have hgk : gk x' = gk x := by
        rw [← hf x' m' hfx', heq, hf x m hfx]
      exact hx (hgk ▸ List.mem_map_of_mem gk hx')

theorem nodup_idPairs_candidatePairs {g : Graph}
    (h : (g.companies.map Company.id).Nodup) :
    ((candidatePairs g).map (fun p => (p.1.id, p.2.id))).Nodup := by
  have h1 : ((allPairs g.companies).map (fun p => (p.1.id, p.2.id))).Nodup := by
    rw [map_idPair_allPairs]
    exact h.product h
  exact h1.sublist ((List.filter_sublist _).map _)

/-- C2: every persisted `POTENTIAL_MATCH` edge carries a score at or
above the configured threshold `0.12`, and no company pair whose
(set-based) Jaccard similarity lies below the threshold is ever
written. -/
theorem potentialMatch_threshold (g : Graph) :
    (∀ m ∈ (applyRun g).potentialMatches, JACCARD_THRESHOLD ≤ m.score) ∧
    (∀ i j : String, specJaccard g i j < JACCARD_THRESHOLD →
      ∀ m ∈ (applyRun g).potentialMatches, ¬ (m.c1 = i ∧ m.c2 = j)) := by
  constructor
  · intro m hm
    rcases mem_computeMatches.1 hm with ⟨a, b, _, _, _, hθ, rfl⟩
    show JACCARD_THRESHOLD ≤ round3 (jaccard g a.id b.id)
    have h120 : ((120 : ℤ) : ℚ) / 1000 ≤ jaccard g a.id b.id := by
      refine le_trans (le_of_eq ?_) hθ
      norm_num [JACCARD_THRESHOLD]
    have := le_round3 h120
    refine le_trans (le_of_eq ?_) this
    norm_num [JACCARD_THRESHOLD]
  · rintro i j hlt m hm ⟨h1, h2⟩
    rcases mem_computeMatches.1 hm with ⟨a, b, _, _, hcand, hθ, rfl⟩
    rcases candPass_iff.1 hcand with ⟨_, _, hshared⟩
    have hc1 : a.id = i := h1
    have hc2 : b.id = j := h2
    have hle : jaccard g a.id b.id ≤ specJaccard g a.id b.id :=
      jaccard_le_specJaccard hshared
    rw [hc1, hc2] at hθ hle
    exact absurd (le_trans hθ hle) (not_le.2 hlt)

/-- C3: matches are emitted in the direction of the identifier order,
so never both `A→B` and `B→A`; with distinct company identifiers each
unordered pair yields at most one edge. -/
theorem potentialMatch_unordered_once (g : Graph) :
    (∀ m ∈ (applyRun g).potentialMatches, idLt m.c1 m.c2) ∧
    (∀ m ∈ (applyRun g).potentialMatches, ∀ m' ∈ (applyRun g).potentialMatches,
      ¬ (m'.c1 = m.c2 ∧ m'.c2 = m.c1)) ∧
    ((g.companies.map Company.id).Nodup →
      ((applyRun g).potentialMatches.map (fun m => (m.c1, m.c2))).Nodup) := by
  have hdir : ∀ m ∈ (applyRun g).potentialMatches, idLt m.c1 m.c2 := by
    intro m hm
    rcases mem_computeMatches.1 hm with ⟨a, b, _, _, hcand, _, rfl⟩
    exact (candPass_iff.1 hcand).1
  refine ⟨hdir, ?_, ?_⟩
  · rintro m hm m' hm' ⟨h1, h2⟩
    have hlt : m.c1.data < m.c2.data := hdir m hm
    have hlt' : m'.c1.data < m'.c2.data := hdir m' hm'
    rw [h1, h2] at hlt'
    exact absurd hlt (lt_asymm hlt')
  · intro hids
    refine nodup_map_filterMap _ _ (fun p => (p.1.id, p.2.id)) ?_ _
      (nodup_idPairs_candidatePairs hids)
    intro p m hsome
    by_cases hθ : JACCARD_THRESHOLD ≤ jaccard g p.1.id p.2.id
    · rw [if_pos hθ] at hsome
      cases hsome
      rfl
    · rw [if_neg hθ] at hsome
      exact absurd hsome (Option.noConfusion)

/-- C4: every persisted match joins two companies whose `industry`
properties are both present and different; a missing/null industry on
either side makes the Cypher `<>` filter reject the pair (no crash, the
pair is simply skipped). -/
theorem potentialMatch_cross_industry (g : Graph) :
    (∀ m ∈ (applyRun g).potentialMatches, ∃ a b : Company,
      a ∈ g.companies ∧ b ∈ g.companies ∧ m.c1 = a.id ∧ m.c2 = b.id ∧
      ∃ i1 i2, a.industry = some i1 ∧ b.industry = some i2 ∧ i1 ≠ i2) ∧
    (∀ a b : Company, a.industry = none ∨ b.industry = none → industryOk a b = false) := by
  constructor
  · intro m hm
    rcases mem_computeMatches.1 hm with ⟨a, b, ha, hb, hcand, _, rfl⟩
    rcases candPass_iff.1 hcand with ⟨_, hind, _⟩
    exact ⟨a, b, ha, hb, rfl, rfl, industryOk_iff.1 hind⟩
  · intro a b hnone
    rcases hnone with h | h <;>
      · cases ha : a.industry <;> cases hb : b.industry <;>
          simp_all [industryOk]

/-- C8: every pair the scorer evaluates has at least one shared
material, hence a strictly positive Jaccard denominator — the division
never divides by zero; a pair of companies with empty material profiles
is never a candidate. -/
theorem candidate_denominator_safe (g : Graph) :
    (∀ p ∈ candidatePairs g, 1 ≤ sharedCount g p.1.id p.2.id) ∧
    (∀ p ∈ candidatePairs g,
      0 < (tCount g p.1.id : ℚ) + (tCount g p.2.id : ℚ) - (sharedCount g p.1.id p.2.id : ℚ)) ∧
    (∀ a b : Company, matEdges g a.id = [] → matEdges g b.id = [] →
      (a, b) ∉ candidatePairs g) := by
  have hshared : ∀ p ∈ candidatePairs g, 1 ≤ sharedCount g p.1.id p.2.id := by
    rintro ⟨a, b⟩ hp
    rcases mem_candidatePairs.1 hp with ⟨_, hcand⟩
    exact (candPass_iff.1 hcand).2.2
  refine ⟨hshared, ?_, ?_⟩
  · intro p hp
    have hs := hshared p hp
    have h1 : sharedCount g p.1.id p.2.id ≤ tCount g p.1.id := sharedCount_le_tCount g _ _
    have h2 : sharedCount g p.1.id p.2.id ≤ tCount g p.2.id := by
      rw [sharedCount_comm]
      exact sharedCount_le_tCount g _ _
    have hq1 : (sharedCount g p.1.id p.2.id : ℚ) ≤ (tCount g p.1.id : ℚ) := by exact_mod_cast h1
    have hq2 : (sharedCount g p.1.id p.2.id : ℚ) ≤ (tCount g p.2.id : ℚ) := by exact_mod_cast h2
    have hqs : (1 : ℚ) ≤ (sharedCount g p.1.id p.2.id : ℚ) := by exact_mod_cast hs
    linarith
  · intro a b ha _ hmem
    have hs := hshared (a, b) hmem
    have hzero : sharedCount g a.id b.id = 0 := by
      rw [sharedCount, sharedMats, profile, ha]
      simp
    rw [hzero] at hs
    exact absurd hs (by norm_num)

/-- C9: the `shared_names` property of every persisted match holds at
most five entries (`sharedNames[0..5]`). -/
theorem shared_names_bounded (g : Graph) :
    ∀ m ∈ (applyRun g).potentialMatches, m.shared_names.length ≤ 5 := by
  intro m hm
  rcases mem_computeMatches.1 hm with ⟨a, b, _, _, _, _, rfl⟩
  exact (sharedNames g a.id b.id).length_take_le 5

/-- C5: the persisted result of a run is the same whatever
`POTENTIAL_MATCH` edges existed before (step 1 deletes them all
unconditionally), and a pair of companies sharing no material never
appears in the persisted result of a run. -/
theorem wipe_then_recompute (g : Graph) :
    (∀ pm : List Match, (applyRun { g with potentialMatches := pm }).potentialMatches
        = (applyRun g).potentialMatches) ∧
    (∀ i j : String, sharedCount g i j = 0 →
      ∀ m ∈ (applyRun g).potentialMatches,
        ¬ ((m.c1 = i ∧ m.c2 = j) ∨ (m.c1 = j ∧ m.c2 = i))) := by
  constructor
  · intro pm
    show computeMatches _ = computeMatches g
    exact computeMatches_pm g pm
  · rintro i j h0 m hm (⟨h1, h2⟩ | ⟨h1, h2⟩)
    · rcases mem_computeMatches.1 hm with ⟨a, b, _, _, hcand, _, rfl⟩
      rcases candPass_iff.1 hcand with ⟨_, _, hs⟩
      rw [(show a.id = i from h1), (show b.id = j from h2), h0] at hs
      exact absurd hs (by norm_num)
    · rcases mem_computeMatches.1 hm with ⟨a, b, _, _, hcand, _, rfl⟩
      rcases candPass_iff.1 hcand with ⟨_, _, hs⟩
      rw [(show a.id = j from h1), (show b.id = i from h2), sharedCount_comm, h0] at hs
      exact absurd hs (by norm_num)

/-- C6: the engine is deterministic and idempotent — running it again
on the resulting graph reproduces that graph exactly — and every
emitted score is an integer number of thousandths (rounded to 3
decimal places). -/
theorem engine_idempotent (g : Graph) :
    applyRun (applyRun g) = applyRun g ∧
    (∀ m ∈ (applyRun g).potentialMatches, ∃ k : ℤ, m.score = (k : ℚ) / 1000) := by
  constructor
  · show ({ applyRun g with potentialMatches := computeMatches (applyRun g) } : Graph) = applyRun g
    rw [show computeMatches (applyRun g) = computeMatches g from computeMatches_pm g (computeMatches g)]
    rfl
  · intro m hm
    rcases mem_computeMatches.1 hm with ⟨a, b, _, _, _, _, rfl⟩
    exact round3_den

/-- C7 (amended): the write phase is one query guarded only by
`main().catch`: if any write fails, nothing of the run's computation is
persisted (the step-1 deletion has already committed, so the match set
is left empty) and the process exits with code 1; there is no per-pair
skipping.  On success, all computed matches persist. -/
theorem write_failure_aborts_batch (g : Graph) :
    runScript g false = ({ g with potentialMatches := [] }, Except.error 1) ∧
    runScript g true = (applyRun g, Except.ok ()) :=
  ⟨rfl, rfl⟩

/-- C10: when any of the three connection environment variables is
unset, the script reports an error and exits with code 1 before
constructing a driver or issuing any query — the graph is untouched. -/
theorem missing_env_aborts (e : Env) (g : Graph) (writeOk : Bool)
    (h : e.uri = none ∨ e.username = none ∨ e.password = none) :
    scriptMain e g writeOk = (g, Except.error 1) := by
  rcases e with ⟨u, n, p⟩
  cases u <;> cases n <;> cases p <;> simp_all [scriptMain]

theorem round3_one : round3 1 = 1 := by
  unfold round3
  norm_num [Int.floor_eq_iff]

theorem gW_jaccard : jaccard gW "c1" "c2" = 1 := by
  have h1 : sharedCount gW "c1" "c2" = 1 := by decide
  have h2 : tCount gW "c1" = 1 := by decide
  have h3 : tCount gW "c2" = 1 := by decide
  rw [jaccard, h1, h2, h3]
  norm_num

theorem gW_matches : computeMatches gW = [mW] := by
  have hc : candidatePairs gW = [(wA, wB)] := by decide
  have hif : JACCARD_THRESHOLD ≤ jaccard gW wA.id wB.id := by
    show JACCARD_THRESHOLD ≤ jaccard gW "c1" "c2"
    rw [gW_jaccard]
    norm_num [JACCARD_THRESHOLD]
  have hm : mkMatch gW wA wB = mW := by
    show Match.mk "c1" "c2" (round3 (jaccard gW "c1" "c2"))
      (sharedCount gW "c1" "c2") ((sharedNames gW "c1" "c2").take 5) = mW
    rw [gW_jaccard, round3_one, (show sharedCount gW "c1" "c2" = 1 by decide),
      (show (sharedNames gW "c1" "c2").take 5 = ["Slag"] by decide)]
    rfl
  rw [computeMatches, hc]
  simp only [List.filterMap_cons, List.filterMap_nil, if_pos hif, hm]

theorem mW_mem : mW ∈ (applyRun gW).potentialMatches := by
  show mW ∈ computeMatches gW
  rw [gW_matches]
  exact List.mem_singleton.2 rfl

theorem potentialMatch_threshold_w :
    JACCARD_THRESHOLD ≤ mW.score ∧ ¬ (mW.c1 = "zz" ∧ mW.c2 = "zz") := by
  have hsj : specJaccard gW "zz" "zz" < JACCARD_THRESHOLD := by
    rw [specJaccard, (show sharedCount gW "zz" "zz" = 0 by decide),
      (show (profile gW "zz").length = 0 by decide)]
    norm_num [JACCARD_THRESHOLD]
  exact ⟨(potentialMatch_threshold gW).1 mW mW_mem,
    (potentialMatch_threshold gW).2 "zz" "zz" hsj mW mW_mem⟩

theorem potentialMatch_unordered_once_w :
    idLt mW.c1 mW.c2 ∧ ¬ (mW.c1 = mW.c2 ∧ mW.c2 = mW.c1) ∧
      (((applyRun gW).potentialMatches).map (fun m => (m.c1, m.c2))).Nodup :=
  ⟨(potentialMatch_unordered_once gW).1 mW mW_mem,
   (potentialMatch_unordered_once gW).2.1 mW mW_mem mW mW_mem,
   (potentialMatch_unordered_once gW).2.2 (by decide)⟩

theorem potentialMatch_cross_industry_w :
    (∃ a b : Company, a ∈ gW.companies ∧ b ∈ gW.companies ∧ mW.c1 = a.id ∧ mW.c2 = b.id ∧
      ∃ i1 i2, a.industry = some i1 ∧ b.industry = some i2 ∧ i1 ≠ i2) ∧
    industryOk ⟨"c9", "NoIndustryCo", none⟩ wA = false :=
  ⟨(potentialMatch_cross_industry gW).1 mW mW_mem,
   (potentialMatch_cross_industry gW).2 ⟨"c9", "NoIndustryCo", none⟩ wA (Or.inl rfl)⟩

theorem wipe_then_recompute_w :
    (applyRun { gW with potentialMatches := [mW] }).potentialMatches
        = (applyRun gW).potentialMatches ∧
    ¬ ((mW.c1 = "c9" ∧ mW.c2 = "c8") ∨ (mW.c1 = "c8" ∧ mW.c2 = "c9")) :=
  ⟨(wipe_then_recompute gW).1 [mW],
   (wipe_then_recompute gW).2 "c9" "c8" (by decide) mW mW_mem⟩

theorem engine_idempotent_w :
    applyRun (applyRun gW) = applyRun gW ∧ ∃ k : ℤ, mW.score = (k : ℚ) / 1000 :=
  ⟨(engine_idempotent gW).1, (engine_idempotent gW).2 mW mW_mem⟩

theorem candidate_denominator_safe_w :
    1 ≤ sharedCount gW wA.id wB.id ∧
    0 < (tCount gW wA.id : ℚ) + (tCount gW wB.id : ℚ) - (sharedCount gW wA.id wB.id : ℚ) ∧
    ((⟨"c9", "EmptyCo", some "X"⟩ : Company), (⟨"c9", "EmptyCo", some "X"⟩ : Company))
      ∉ candidatePairs gW := by
  have hp : (wA, wB) ∈ candidatePairs gW := by decide
  exact ⟨(candidate_denominator_safe gW).1 (wA, wB) hp,
    (candidate_denominator_safe gW).2.1 (wA, wB) hp,
    (candidate_denominator_safe gW).2.2 _ _ (by decide) (by decide)⟩

theorem shared_names_bounded_w : mW.shared_names.length ≤ 5 :=
  shared_names_bounded gW mW mW_mem

theorem missing_env_aborts_w :
    scriptMain ⟨none, some "neo4j", some "secret"⟩ gW true = (gW, Except.error 1) :=
  missing_env_aborts ⟨none, some "neo4j", some "secret"⟩ gW true (Or.inl rfl)

theorem gC1_jaccard : jaccard gC1 "c1" "c2" = 1 / 3 := by
  rw [jaccard, (show sharedCount gC1 "c1" "c2" = 1 by decide),
    (show tCount gC1 "c1" = 2 by decide), (show tCount gC1 "c2" = 2 by decide)]
  norm_num

theorem round3_third : round3 (1 / 3) = 333 / 1000 := by
  unfold round3
  norm_num [Int.floor_eq_iff]

theorem gC1_matches : computeMatches gC1 = [mC1] := by
  have hc : candidatePairs gC1 = [(wA, wB)] := by decide
  have hif : JACCARD_THRESHOLD ≤ jaccard gC1 wA.id wB.id := by
    show JACCARD_THRESHOLD ≤ jaccard gC1 "c1" "c2"
    rw [gC1_jaccard]
    norm_num [JACCARD_THRESHOLD]
  have hm : mkMatch gC1 wA wB = mC1 := by
    show Match.mk "c1" "c2" (round3 (jaccard gC1 "c1" "c2"))
      (sharedCount gC1 "c1" "c2") ((sharedNames gC1 "c1" "c2").take 5) = mC1
    rw [gC1_jaccard, round3_third, (show sharedCount gC1 "c1" "c2" = 1 by decide),
      (show (sharedNames gC1 "c1" "c2").take 5 = ["Slag"] by decide)]
    rfl
  rw [computeMatches, hc]
  simp only [List.filterMap_cons, List.filterMap_nil, if_pos hif, hm]

/-- C1: the stored score is NOT the set-based Jaccard of the two
distinct-material profiles.  On `gC1` the profiles are `{w1}` and
`{w1, w2}`, so the spec formula gives `1 / (1 + 2 - 1) = 0.5`, but the
engine's pattern-comprehension totals count the doubly-linked `w1`
twice and it stores `round3(1 / (2 + 2 - 1)) = 0.333`. -/
theorem score_uses_edge_multiplicity :
    computeMatches gC1 = [mC1] ∧ specJaccard gC1 "c1" "c2" = 1 / 2 ∧
      mC1.score ≠ 1 / 2 := by
  refine ⟨gC1_matches, ?_, ?_⟩
  · rw [specJaccard, (show sharedCount gC1 "c1" "c2" = 1 by decide),
      (show (profile gC1 "c1").length = 1 by decide),
      (show (profile gC1 "c2").length = 2 by decide)]
    norm_num
  · show (333 : ℚ) / 1000 ≠ 1 / 2
    norm_num

theorem gC7_jaccard_ab : jaccard gC7 "c1" "c2" = 1 := by
  rw [jaccard, (show sharedCount gC7 "c1" "c2" = 1 by decide),
    (show tCount gC7 "c1" = 1 by decide), (show tCount gC7 "c2" = 1 by decide)]
  norm_num

theorem gC7_jaccard_cd : jaccard gC7 "c3" "c4" = 1 := by
  rw [jaccard, (show sharedCount gC7 "c3" "c4" = 1 by decide),
    (show tCount gC7 "c3" = 1 by decide), (show tCount gC7 "c4" = 1 by decide)]
  norm_num

theorem gC7_matches : computeMatches gC7 = [mW, mCD] := by
  have hc : candidatePairs gC7 = [(wA, wB), (wC, wD)] := by decide
  have hif1 : JACCARD_THRESHOLD ≤ jaccard gC7 wA.id wB.id := by
    show JACCARD_THRESHOLD ≤ jaccard gC7 "c1" "c2"
    rw [gC7_jaccard_ab]
    norm_num [JACCARD_THRESHOLD]
  have hif2 : JACCARD_THRESHOLD ≤ jaccard gC7 wC.id wD.id := by
    show JACCARD_THRESHOLD ≤ jaccard gC7 "c3" "c4"
    rw [gC7_jaccard_cd]
    norm_num [JACCARD_THRESHOLD]
  have hm1 : mkMatch gC7 wA wB = mW := by
    show Match.mk "c1" "c2" (round3 (jaccard gC7 "c1" "c2"))
      (sharedCount gC7 "c1" "c2") ((sharedNames gC7 "c1" "c2").take 5) = mW
    rw [gC7_jaccard_ab, round3_one, (show sharedCount gC7 "c1" "c2" = 1 by decide),
      (show (sharedNames gC7 "c1" "c2").take 5 = ["Slag"] by decide)]
    rfl
  have hm2 : mkMatch gC7 wC wD = mCD := by
    show Match.mk "c3" "c4" (round3 (jaccard gC7 "c3" "c4"))
      (sharedCount gC7 "c3" "c4") ((sharedNames gC7 "c3" "c4").take 5) = mCD
    rw [gC7_jaccard_cd, round3_one, (show sharedCount gC7 "c3" "c4" = 1 by decide),
      (show (sharedNames gC7 "c3" "c4").take 5 = ["Husk"] by decide)]
    rfl
  rw [computeMatches, hc]
  simp only [List.filterMap_cons, List.filterMap_nil, if_pos hif1, if_pos hif2, hm1, hm2]

/-- C7 counterexample: on `gC7` the engine computes two qualifying
pairs, yet when a write fails the run persists neither of them — in
particular it does not skip one pair and continue with the other — and
the process exits with code 1. -/
theorem write_failure_drops_all_pairs :
    (computeMatches gC7).length = 2 ∧
    (runScript gC7 false).1.potentialMatches = [] ∧
    (runScript gC7 false).2 = Except.error 1 := by
  refine ⟨?_, rfl, rfl⟩
  rw [gC7_matches]
  rfl
